import Mathlib

/-!
Shallow embedding of the CrowdGuard detection-to-alert pipeline.

The embedded code comes from three source files:
* `src/components/WebcamDetector.tsx` — shape filter, adult/child classifier,
  identity tracker, behavior analyzer, occupancy counters (all inside `detect`);
* `src/pages/Index.tsx` — the alert dispatcher (`handleAlert`);
* the `useVoiceAlert` hook — voice dedup (`speak`) and the FIFO queue (`speakNext`).

Pixel coordinates, box dimensions and model scores are embedded as rationals
(the TypeScript uses IEEE doubles, but every comparison relevant here is between
exactly representable decimal constants and the data we quantify over, so ℚ is
faithful).  Timestamps (`Date.now()` values) and counts are naturals; JavaScript
subtraction of timestamps is modelled with truncated ℕ subtraction together with
the monotonicity of real clocks where it matters.
-/

namespace CrowdGuard

/-! ## Occupancy counter (WebcamDetector.tsx, lines 327–341)

`prevCountRef` starts at 0 and the stats record starts zeroed.  Each frame the
classified person count `c` is folded into the counters:

    if (currentCount > prevCountRef.current) stats.totalIn += currentCount - prevCountRef.current;
    else if (currentCount < prevCountRef.current && prevCountRef.current > 0)
      stats.totalOut += prevCountRef.current - currentCount;
    stats.currentCount = currentCount;
    if (currentCount > stats.peakCount) stats.peakCount = currentCount;
    prevCountRef.current = currentCount;
-/

structure CounterState where
  prevCount : ℕ
  currentCount : ℕ
  totalIn : ℕ
  totalOut : ℕ
  peakCount : ℕ
  deriving Repr, DecidableEq

def initialCounters : CounterState := ⟨0, 0, 0, 0, 0⟩

def occupancyStep (s : CounterState) (c : ℕ) : CounterState :=
  let totalIn := if s.prevCount < c then s.totalIn + (c - s.prevCount) else s.totalIn
  let totalOut :=
    if c < s.prevCount ∧ 0 < s.prevCount then s.totalOut + (s.prevCount - c) else s.totalOut
  { prevCount := c
    currentCount := c
    totalIn := totalIn
    totalOut := totalOut
    peakCount := if s.peakCount < c then c else s.peakCount }

/-- Replay a sequence of per-frame classified person counts from zeroed counters. -/
def replayCounts (counts : List ℕ) : CounterState :=
  counts.foldl occupancyStep initialCounters

/-- The delta rule stated by the spec, written as a direct recursion over the
count sequence: each frame contributes `c - p` to `totalIn` (when `c > p`). -/
def specTotalIn : ℕ → List ℕ → ℕ
  | _, [] => 0
  | p, c :: cs => (c - p) + specTotalIn c cs

/-- Spec-side delta rule for `totalOut`: a frame contributes `p - c` when
`c < p` and `p > 0` (truncated ℕ subtraction makes the `c < p` guard redundant). -/
def specTotalOut : ℕ → List ℕ → ℕ
  | _, [] => 0
  | p, c :: cs => (if 0 < p then p - c else 0) + specTotalOut c cs

/-- Spec-side peak: the maximum of 0 and all frame counts. -/
def specPeak (counts : List ℕ) : ℕ := counts.foldl max 0

lemma occupancyStep_totalIn_foldl (counts : List ℕ) :
    ∀ s : CounterState,
      (counts.foldl occupancyStep s).totalIn = s.totalIn + specTotalIn s.prevCount counts := by
  induction counts with
  | nil => intro s; simp [specTotalIn]
  | cons c cs ih =>
    intro s
    simp only [List.foldl_cons, ih, specTotalIn, occupancyStep]
    rcases lt_or_ge s.prevCount c with h | h
    · simp [h, Nat.add_assoc]
    · simp [Nat.not_lt.mpr h, Nat.sub_eq_zero_of_le h]

lemma occupancyStep_totalOut_foldl (counts : List ℕ) :
    ∀ s : CounterState,
      (counts.foldl occupancyStep s).totalOut = s.totalOut + specTotalOut s.prevCount counts := by
  induction counts with
  | nil => intro s; simp [specTotalOut]
  | cons c cs ih =>
    intro s
    simp only [List.foldl_cons, ih, specTotalOut, occupancyStep]
    rcases Nat.eq_zero_or_pos s.prevCount with h0 | h0
    · simp [h0]
    · rcases lt_or_ge c s.prevCount with h | h
      · simp [h, h0, Nat.add_assoc]
      · have : s.prevCount - c = 0 := Nat.sub_eq_zero_of_le h
        simp [Nat.not_lt.mpr h, h0, this]

lemma occupancyStep_peak_foldl (counts : List ℕ) :
    ∀ s : CounterState,
      (counts.foldl occupancyStep s).peakCount = counts.foldl max s.peakCount := by
  induction counts with
  | nil => intro s; simp
  | cons c cs ih =>
    intro s
    simp only [List.foldl_cons, ih, occupancyStep]
    congr 1
    rcases lt_or_ge s.peakCount c with h | h
    · simp [h, Nat.max_eq_right (le_of_lt h)]
    · simp [Nat.not_lt.mpr h, Nat.max_eq_left h]

/-- **C1.** Starting from zeroed counters, replaying any sequence of per-frame
classified person counts through the occupancy update reproduces exactly the
`totalIn`, `totalOut` and `peakCount` of the stated delta rule; in particular
the counts `[0,2,1,3,0]` yield `totalIn = 4`, `totalOut = 4`, `peakCount = 3`. -/
theorem occupancy_replay_matches_delta_rule :
    (∀ counts : List ℕ,
      (replayCounts counts).totalIn = specTotalIn 0 counts ∧
      (replayCounts counts).totalOut = specTotalOut 0 counts ∧
      (replayCounts counts).peakCount = specPeak counts) ∧
    replayCounts [0, 2, 1, 3, 0] =
      { prevCount := 0, currentCount := 0, totalIn := 4, totalOut := 4, peakCount := 3 } := by
  constructor
  · intro counts
    refine ⟨?_, ?_, ?_⟩
    · simpa [replayCounts, initialCounters] using
        occupancyStep_totalIn_foldl counts initialCounters
    · simpa [replayCounts, initialCounters] using
        occupancyStep_totalOut_foldl counts initialCounters
    · simpa [replayCounts, initialCounters, specPeak] using
        occupancyStep_peak_foldl counts initialCounters
  · decide

/-! ## Alert dispatcher (Index.tsx, lines 68–83)

    setAlerts((prev) => {
      if (prev.length > 0 && prev[prev.length - 1].message === message) return prev;
      return [...prev, entry].slice(-50);
    });

Only the message string matters for the claims, so the log is a list of
messages (the stored entry also carries time and severity). -/

/-- JavaScript `array.slice(-n)`: the last `n` elements. -/
def takeLast (n : ℕ) (l : List α) : List α := l.drop (l.length - n)

def handleAlertStep (log : List String) (message : String) : List String :=
  if log.length > 0 ∧ log.getLast? = some message then log
  else takeLast 50 (log ++ [message])

def runAlerts (messages : List String) : List String :=
  messages.foldl handleAlertStep []

lemma length_takeLast (n : ℕ) (l : List α) : (takeLast n l).length = min n l.length := by
  simp [takeLast]
  omega

lemma handleAlertStep_length_le (log : List String) (m : String) (h : log.length ≤ 50) :
    (handleAlertStep log m).length ≤ 50 := by
  unfold handleAlertStep
  split
  · exact h
  · rw [length_takeLast]; exact min_le_left _ _

lemma chain'_takeLast {R : α → α → Prop} {l : List α} (h : List.Chain' R l) (n : ℕ) :
    List.Chain' R (takeLast n l) :=
  h.drop _

lemma handleAlertStep_chain' (log : List String) (m : String)
    (h : List.Chain' (· ≠ ·) log) : List.Chain' (· ≠ ·) (handleAlertStep log m) := by
  unfold handleAlertStep
  split
  · exact h
  · next hne =>
    apply chain'_takeLast
    rw [List.chain'_append]
    refine ⟨h, List.chain'_singleton m, ?_⟩
    intro x hx y hy
    have hym : y = m := by simpa [eq_comm] using hy
    subst hym
    rw [Option.mem_def] at hx
    intro hxy
    subst hxy
    rcases log with _ | ⟨a, as⟩
    · simp at hx
    · exact hne ⟨by simp, hx⟩

lemma runAlerts_invariant (messages : List String) :
    (runAlerts messages).length ≤ 50 ∧ List.Chain' (· ≠ ·) (runAlerts messages) := by
  unfold runAlerts
  induction messages using List.reverseRecOn with
  | nil => simp
  | append_singleton ms m ih =>
    rw [List.foldl_append, List.foldl_cons, List.foldl_nil]
    exact ⟨handleAlertStep_length_le _ _ ih.1, handleAlertStep_chain' _ _ ih.2⟩

/-- **C5.** The alert dispatcher appends each candidate alert unless its message
equals the most recently appended entry's message (single-entry lookback), and
keeps only the 50 most recent entries; submitting "X", "X", "Y" yields
`["X", "Y"]`.  The capped log never exceeds 50 entries and never contains two
adjacent equal messages. -/
theorem alert_log_dedup_and_cap :
    runAlerts ["X", "X", "Y"] = ["X", "Y"] ∧
    (∀ messages : List String, (runAlerts messages).length ≤ 50) ∧
    (∀ messages : List String, List.Chain' (· ≠ ·) (runAlerts messages)) ∧
    (∀ log m, ¬(log.length > 0 ∧ log.getLast? = some m) →
      handleAlertStep log m = takeLast 50 (log ++ [m])) := by
  refine ⟨by decide, fun ms => (runAlerts_invariant ms).1,
    fun ms => (runAlerts_invariant ms).2, fun log m h => ?_⟩
  simp [handleAlertStep, h]

/-- Witness instantiating `alert_log_dedup_and_cap` at concrete inputs. -/
theorem alert_log_dedup_and_cap_witness :
    (runAlerts ["A", "B", "B"]).length ≤ 50 ∧
    handleAlertStep ["A"] "B" = takeLast 50 (["A"] ++ ["B"]) :=
  ⟨(alert_log_dedup_and_cap.2.1 _),
    (alert_log_dedup_and_cap.2.2.2 ["A"] "B" (by decide))⟩

/-! ## Identity histories (WebcamDetector.tsx, lines 238–252 and 274–276)

Each tracked identity is a map entry `{ positions: number[][]; firstSeen }`.
A matched or newly created identity gets `[cx, cy, bbox[2], bbox[3]]` pushed:

    entry.positions.push([cx, cy, bbox[2], bbox[3]]);
    if (entry.positions.length > 30) entry.positions.shift();

and after all detections are processed the sweep runs:

    if (now - val.firstSeen > 60000 && val.positions.length < 2) history.delete(key);
-/

structure Pos where
  cx : ℚ
  cy : ℚ
  w : ℚ
  h : ℚ
  deriving Repr, DecidableEq

/-- `push` followed by the conditional `shift` (drop the oldest element). -/
def pushPos (ps : List Pos) (p : Pos) : List Pos :=
  let ps' := ps ++ [p]
  if 30 < ps'.length then ps'.tail else ps'

structure Ident where
  firstSeen : ℕ
  positions : List Pos
  deriving Repr, DecidableEq

/-- Creation: `history.set(key, { positions: [], firstSeen: now })` immediately
followed by the push of the frame's position. -/
def mkIdent (now : ℕ) (p : Pos) : Ident := ⟨now, pushPos [] p⟩

/-- A later frame that matches the identity pushes its position (`firstSeen` is
not touched on match). -/
def appendObs (e : Ident) (p : Pos) : Ident := { e with positions := pushPos e.positions p }

/-- The eviction condition of the end-of-frame sweep. -/
def sweepRemoves (now : ℕ) (e : Ident) : Bool :=
  decide (60000 < now - e.firstSeen) && decide (e.positions.length < 2)

lemma length_pushPos (ps : List Pos) (p : Pos) :
    (pushPos ps p).length = if 30 < ps.length + 1 then ps.length else ps.length + 1 := by
  simp only [pushPos, List.length_append, List.length_singleton]
  split <;> simp

lemma length_le_length_pushPos (ps : List Pos) (p : Pos) :
    ps.length ≤ (pushPos ps p).length := by
  rw [length_pushPos]
  split <;> omega

lemma length_pushPos_le (ps : List Pos) (p : Pos) (h : ps.length ≤ 30) :
    (pushPos ps p).length ≤ 30 := by
  rw [length_pushPos]
  split <;> omega

lemma foldl_pushPos_length_le (qs : List Pos) :
    ∀ ps : List Pos, ps.length ≤ 30 → (qs.foldl pushPos ps).length ≤ 30 := by
  induction qs with
  | nil => intro ps h; simpa using h
  | cons q qs ih => intro ps h; exact ih _ (length_pushPos_le ps q h)

/-- **C8.** A position history built by any number of frame appends never
exceeds 30 entries, and appending to a full history of 30 evicts the oldest
entry (ring-buffer behavior). -/
theorem position_history_ring_buffer :
    (∀ qs : List Pos, (qs.foldl pushPos []).length ≤ 30) ∧
    (∀ (ps : List Pos) (p : Pos), ps.length = 30 → pushPos ps p = ps.tail ++ [p]) := by
  constructor
  · intro qs
    exact foldl_pushPos_length_le qs [] (by simp)
  · intro ps p h
    rcases ps with _ | ⟨a, as⟩
    · simp at h
    · have hl : as.length = 29 := by simpa using h
      simp [pushPos, hl]

/-- Witness instantiating `position_history_ring_buffer` on concrete histories. -/
theorem position_history_ring_buffer_witness :
    ((List.replicate 40 (⟨0, 0, 0, 0⟩ : Pos)).foldl pushPos []).length ≤ 30 ∧
    pushPos (List.replicate 30 (⟨0, 0, 0, 0⟩ : Pos)) ⟨1, 1, 1, 1⟩ =
      (List.replicate 30 (⟨0, 0, 0, 0⟩ : Pos)).tail ++ [⟨1, 1, 1, 1⟩] :=
  ⟨position_history_ring_buffer.1 _,
    position_history_ring_buffer.2 _ _ (by simp)⟩

/-! ### The eviction sweep (C9, C10)

The source stores no "last updated" timestamp: the sweep tests
`now - firstSeen`.  An identity's whole lifecycle, however, is creation
(one position pushed at `firstSeen`) followed by one push per matching frame,
so an entry with fewer than 2 stored positions is exactly one that was never
matched after creation — for it, the last update time *is* `firstSeen`.
`buildIdent` ranges over exactly the entry states the tracker can produce; the
update times are ghost data recorded alongside to express "last updated". -/

def buildIdent (t0 : ℕ) (p0 : Pos) (updates : List (ℕ × Pos)) : Ident :=
  updates.foldl (fun e u => appendObs e u.2) (mkIdent t0 p0)

/-- Ghost clock: the time of the last update (creation time if never matched). -/
def lastUpdatedOf (t0 : ℕ) (updates : List (ℕ × Pos)) : ℕ :=
  ((updates.map Prod.fst).getLast?).getD t0

/-- Total number of recorded observations over the identity's lifetime. -/
def totalObs (updates : List (ℕ × Pos)) : ℕ := updates.length + 1

lemma buildIdent_firstSeen (t0 : ℕ) (p0 : Pos) (updates : List (ℕ × Pos)) :
    (buildIdent t0 p0 updates).firstSeen = t0 := by
  unfold buildIdent
  suffices h : ∀ (e : Ident),
      (updates.foldl (fun e u => appendObs e u.2) e).firstSeen = e.firstSeen by
    exact h _
  induction updates with
  | nil => intro e; rfl
  | cons u us ih => intro e; simpa using ih (appendObs e u.2)

lemma foldl_appendObs_length_mono (updates : List (ℕ × Pos)) :
    ∀ e : Ident,
      e.positions.length ≤ (updates.foldl (fun e u => appendObs e u.2) e).positions.length := by
  induction updates with
  | nil => intro e; exact le_refl _
  | cons u us ih =>
    intro e
    exact le_trans (length_le_length_pushPos e.positions u.2) (ih (appendObs e u.2))

lemma buildIdent_two_le_length (t0 : ℕ) (p0 : Pos) (u : ℕ × Pos) (us : List (ℕ × Pos)) :
    2 ≤ (buildIdent t0 p0 (u :: us)).positions.length := by
  unfold buildIdent
  rw [List.foldl_cons]
  refine le_trans ?_ (foldl_appendObs_length_mono us _)
  simp [appendObs, mkIdent, pushPos]

/-- **C9.** For every identity the tracker can produce, the end-of-frame sweep
removes it exactly when it was last updated more than 60 seconds before `now`
and carries fewer than 2 total recorded observations — and keeps it otherwise.
(The source tests `now - firstSeen`, which coincides with the time since the
last update precisely on the sub-2-observation entries the sweep can remove.) -/
theorem sweep_eviction_condition (t0 : ℕ) (p0 : Pos) (updates : List (ℕ × Pos)) (now : ℕ) :
    sweepRemoves now (buildIdent t0 p0 updates) =
      (decide (60000 < now - lastUpdatedOf t0 updates) && decide (totalObs updates < 2)) := by
  rcases updates with _ | ⟨u, us⟩
  · simp [sweepRemoves, buildIdent, mkIdent, pushPos, lastUpdatedOf, totalObs]
  · have h2 := buildIdent_two_le_length t0 p0 u us
    have hlen : ¬((buildIdent t0 p0 (u :: us)).positions.length < 2) := by omega
    have hobs : ¬(totalObs (u :: us) < 2) := by simp [totalObs]
    simp [sweepRemoves, hlen, hobs]

/-! ### C10: identities with ≥ 2 positions are never evicted

The only operations the tracker ever applies to a stored identity are a
position push (on match) and the sweep test; `history.delete` occurs nowhere
else.  An identity's fate over any suffix of the run is therefore a fold of
these two operations. -/

inductive IdOp where
  | push : Pos → IdOp
  | sweep : ℕ → IdOp
  deriving Repr, DecidableEq

def applyOp : Option Ident → IdOp → Option Ident
  | none, _ => none
  | some e, IdOp.push p => some (appendObs e p)
  | some e, IdOp.sweep now => if sweepRemoves now e then none else some e

/-- **C10.** An identity whose history holds at least 2 positions survives
every subsequent sequence of frame operations (pushes and sweeps at arbitrary
times): it is never evicted, no matter how long it goes unmatched. -/
theorem two_positions_never_evicted (e : Ident) (ops : List IdOp)
    (h2 : 2 ≤ e.positions.length) :
    ∃ e', ops.foldl applyOp (some e) = some e' ∧ 2 ≤ e'.positions.length := by
  induction ops generalizing e with
  | nil => exact ⟨e, rfl, h2⟩
  | cons op ops ih =>
    cases op with
    | push p =>
      rw [List.foldl_cons]
      exact ih (appendObs e p) (le_trans h2 (length_le_length_pushPos e.positions p))
    | sweep now =>
      rw [List.foldl_cons]
      have hs : sweepRemoves now e = false := by
        have : ¬(e.positions.length < 2) := by omega
        simp [sweepRemoves, this]
      simpa [applyOp, hs] using ih e h2

/-- Witness instantiating `two_positions_never_evicted`: an identity with two
positions survives a sweep far in the future followed by a push. -/
theorem two_positions_never_evicted_witness :
    ∃ e', [IdOp.sweep 999999999, IdOp.push ⟨5, 5, 1, 1⟩].foldl applyOp
        (some ⟨0, [⟨0, 0, 1, 1⟩, ⟨1, 1, 1, 1⟩]⟩) = some e' ∧
      2 ≤ e'.positions.length :=
  two_positions_never_evicted ⟨0, [⟨0, 0, 1, 1⟩, ⟨1, 1, 1, 1⟩]⟩ _ (by simp)

/-! ## Fall detection (WebcamDetector.tsx, lines 246–252)

    if (entry.positions.length > 5) {
      const recent = entry.positions.slice(-5);
      const heightRatios = recent.map((p) => p[3] / (p[2] || 1));
      if (heightRatios[0] > 1.3 && heightRatios[heightRatios.length - 1] < 0.9) {
        onAlert?.("FALL DETECTED — Person may have fallen down!", "danger");
      }
    }

The guard `length > 5` makes `recent` a 5-element list, so the index reads
`heightRatios[0]` and `heightRatios[length-1]` always hit; they are embedded
as `head?/getLast?` with an unreachable default.  `true` means the single
danger alert is emitted for the identity that frame, `false` means no alert. -/

/-- `p[3] / (p[2] || 1)`: height/width with a zero-width guard. -/
def hwRat (p : Pos) : ℚ := p.h / (if p.w = 0 then 1 else p.w)

def fallDetected (ps : List Pos) : Bool :=
  if 5 < ps.length then
    let rs := (takeLast 5 ps).map hwRat
    decide ((13 : ℚ) / 10 < (rs.head?).getD 0) && decide ((rs.getLast?).getD 0 < (9 : ℚ) / 10)
  else false

/-- A history of exactly 5 positions whose height/width ratio goes 1.4 → 0.8. -/
def fivePosHistory : List Pos :=
  [⟨0, 0, 10, 14⟩, ⟨0, 0, 10, 12⟩, ⟨0, 0, 10, 11⟩, ⟨0, 0, 10, 10⟩, ⟨0, 0, 10, 8⟩]

/-- **C3, counterexample.** An identity with exactly 5 recorded positions,
height/width ratio 1.4 at the first of them and 0.8 at the last, emits *no*
fall alert (the source requires strictly more than 5 positions), refuting the
claimed "exactly one danger fall alert that frame". -/
theorem fall_exactly_five_positions_no_alert :
    fivePosHistory.length = 5 ∧
    (fivePosHistory.map hwRat).head? = some (14 / 10) ∧
    (fivePosHistory.map hwRat).getLast? = some (8 / 10) ∧
    fallDetected fivePosHistory = false := by
  refine ⟨rfl, ?_, ?_, by decide⟩ <;> norm_num [fivePosHistory, hwRat]

/-- **C3, amended.** For any identity whose position history contains *more
than* 5 recorded positions, with height/width ratio 1.4 at the first of the
last five positions and 0.8 at the last, the behavior analyzer emits exactly
one danger fall alert that frame; an identity whose height/width ratio stays
above 0.9 in its recent (last five) positions never triggers a fall alert. -/
theorem fall_detection_amended :
    (∀ ps : List Pos, 5 < ps.length →
      ((takeLast 5 ps).map hwRat).head? = some (14 / 10) →
      ((takeLast 5 ps).map hwRat).getLast? = some (8 / 10) →
      fallDetected ps = true) ∧
    (∀ ps : List Pos, (∀ r ∈ (takeLast 5 ps).map hwRat, (9 : ℚ) / 10 < r) →
      fallDetected ps = false) := by
  constructor
  · intro ps h5 hh hl
    simp only [fallDetected, if_pos h5, hh, hl, Option.getD_some]
    norm_num
  · intro ps hr
    simp only [fallDetected]
    split
    · next h5 =>
      set rs := (takeLast 5 ps).map hwRat with hrs
      have hne : rs ≠ [] := by
        have h5' : (takeLast 5 ps).length = 5 := by
          rw [length_takeLast]
          omega
        simp [hrs, List.map_eq_nil_iff, ← List.length_eq_zero, h5']
      obtain ⟨rl, hrl⟩ : ∃ rl, rs.getLast? = some rl := by
        rcases hx : rs.getLast? with _ | rl
        · exact absurd (List.getLast?_eq_none_iff.mp hx) hne
        · exact ⟨rl, rfl⟩
      have hmem : rl ∈ rs := by
        obtain ⟨hx, hx2⟩ := List.mem_getLast?_eq_getLast (show rl ∈ rs.getLast? from hrl)
        rw [hx2]
        exact List.getLast_mem hx
      have hnl : ¬(rl < (9 : ℚ) / 10) := not_lt_of_gt (hr rl hmem)
      simp [hrl, hnl]
    · rfl

/-- Witness instantiating `fall_detection_amended`: a 6-position history whose
last-five ratios run 1.4 → 0.8 fires the alert, and an all-upright history
(every ratio 1) never does. -/
theorem fall_detection_amended_witness :
    fallDetected (⟨0, 0, 10, 10⟩ :: fivePosHistory) = true ∧
    fallDetected (List.replicate 6 (⟨0, 0, 10, 10⟩ : Pos)) = false :=
  ⟨fall_detection_amended.1 _ (by decide) (by norm_num [fivePosHistory, takeLast, hwRat])
      (by norm_num [fivePosHistory, takeLast, hwRat]),
    fall_detection_amended.2 _ (by norm_num [takeLast, hwRat])⟩

/-! ## Shape filter and person classifier (WebcamDetector.tsx, lines 174–212)

    const rawPeople = predictions.filter((p) => p.class === "person" && p.score > 0.40);
    const classified = rawPeople
      .filter((p) => isRealPerson(p.bbox))
      .map((p) => { ... const isChild = p.score < 0.60 && areaRatio < 0.12 && h/(w||1) > 0.85;
                    if (!isChild && p.score < 0.50) return null;
                    return { obj: p, isChild }; })
      .filter(Boolean);

`map` followed by `.filter(Boolean)` is a `filterMap`. -/

structure BBox where
  x : ℚ
  y : ℚ
  w : ℚ
  h : ℚ
  deriving Repr, DecidableEq

structure Det where
  cls : String
  score : ℚ
  bbox : BBox
  deriving Repr, DecidableEq

/-- The shadow/noise rejection helper (`isRealPerson`). -/
def isRealPerson (frameArea : ℚ) (b : BBox) : Bool :=
  let aspect := b.h / (if b.w = 0 then 1 else b.w)
  let areaFrac := (b.w * b.h) / (if frameArea = 0 then 1 else frameArea)
  let minDim := min b.w b.h
  if aspect < 55 / 100 then false
  else if 70 / 100 < areaFrac then false
  else if minDim < 25 then false
  else true

/-- Score filter, shape filter and adult/child classification for one frame.
Each surviving detection is paired with its `isChild` flag. -/
def classifyDetections (frameArea : ℚ) (preds : List Det) : List (Det × Bool) :=
  let rawPeople := preds.filter (fun p => p.cls == "person" && decide ((40 : ℚ) / 100 < p.score))
  (rawPeople.filter (fun p => isRealPerson frameArea p.bbox)).filterMap (fun p =>
    let areaFrac := (p.bbox.w * p.bbox.h) / (if frameArea = 0 then 1 else frameArea)
    let isChild := decide (p.score < 60 / 100) && decide (areaFrac < 12 / 100) &&
      decide ((85 : ℚ) / 100 < p.bbox.h / (if p.bbox.w = 0 then 1 else p.bbox.w))
    if !isChild && decide (p.score < 50 / 100) then none else some (p, isChild))

/-- **C4.** Every detection the classifier accepts as an adult has score ≥ 0.50,
and every detection it accepts as a child has score ≥ 0.40 and score < 0.60. -/
theorem classifier_score_bounds (frameArea : ℚ) (preds : List Det) (d : Det) (b : Bool)
    (hmem : (d, b) ∈ classifyDetections frameArea preds) :
    (b = true → (40 : ℚ) / 100 ≤ d.score ∧ d.score < 60 / 100) ∧
    (b = false → (50 : ℚ) / 100 ≤ d.score) := by
  unfold classifyDetections at hmem
  rw [List.mem_filterMap] at hmem
  obtain ⟨p, hpmem, heq⟩ := hmem
  rw [List.mem_filter] at hpmem
  obtain ⟨hpraw, hreal⟩ := hpmem
  rw [List.mem_filter] at hpraw
  obtain ⟨hp, hscore'⟩ := hpraw
  rw [Bool.and_eq_true] at hscore'
  have hscore : (40 : ℚ) / 100 < p.score := of_decide_eq_true hscore'.2
  dsimp only at heq
  cases hE : (decide (p.score < 60 / 100) &&
      decide (p.bbox.w * p.bbox.h / (if frameArea = 0 then 1 else frameArea) < 12 / 100) &&
      decide ((85 : ℚ) / 100 < p.bbox.h / (if p.bbox.w = 0 then 1 else p.bbox.w))) with
  | false =>
    rw [hE] at heq
    by_cases hlt : p.score < 50 / 100
    · simp [hlt] at heq
    · rw [if_neg (show ¬((!false && decide (p.score < 50 / 100)) = true) by simp [hlt])] at heq
      rw [Option.some_inj, Prod.mk.injEq] at heq
      obtain ⟨rfl, rfl⟩ := heq
      exact ⟨fun h => (nomatch h), fun _ => le_of_not_lt hlt⟩
  | true =>
    rw [hE] at heq
    simp only [Bool.not_true, Bool.false_and, Bool.false_eq_true, if_false] at heq
    rw [Option.some_inj, Prod.mk.injEq] at heq
    obtain ⟨rfl, rfl⟩ := heq
    rw [Bool.and_eq_true, Bool.and_eq_true] at hE
    exact ⟨fun _ => ⟨le_of_lt hscore, of_decide_eq_true hE.1.1⟩, fun h => (nomatch h)⟩

/-- A high-confidence, large, upright detection: accepted as an adult. -/
def adultDet : Det := ⟨"person", 80 / 100, ⟨0, 0, 40, 60⟩⟩

/-- A lower-confidence, small, upright detection: accepted as a child. -/
def childDet : Det := ⟨"person", 45 / 100, ⟨0, 0, 30, 40⟩⟩

lemma classify_example :
    classifyDetections (640 * 480) [adultDet, childDet] =
      [(adultDet, false), (childDet, true)] := by
  norm_num [classifyDetections, isRealPerson, adultDet, childDet, List.filterMap_cons]

/-- Witness instantiating `classifier_score_bounds`: a frame with one accepted
adult and one accepted child. -/
theorem classifier_score_bounds_witness :
    ((adultDet, false) ∈ classifyDetections (640 * 480) [adultDet, childDet] ∧
      (50 : ℚ) / 100 ≤ adultDet.score) ∧
    ((childDet, true) ∈ classifyDetections (640 * 480) [adultDet, childDet] ∧
      (40 : ℚ) / 100 ≤ childDet.score ∧ childDet.score < 60 / 100) := by
  have hmem1 : (adultDet, false) ∈ classifyDetections (640 * 480) [adultDet, childDet] := by
    rw [classify_example]
    exact List.mem_cons_self _ _
  have hmem2 : (childDet, true) ∈ classifyDetections (640 * 480) [adultDet, childDet] := by
    rw [classify_example]
    simp
  exact ⟨⟨hmem1, (classifier_score_bounds _ _ _ _ hmem1).2 rfl⟩,
    ⟨hmem2, (classifier_score_bounds _ _ _ _ hmem2).1 rfl⟩⟩

/-! ## Identity matching (WebcamDetector.tsx, lines 221–242)

    const matched = new Set<number>();
    currentBboxes.forEach((bbox, ci) => {
      ...
      prevBboxes.forEach((pbox, pi) => {
        if (matched.has(pi)) return;
        const dist = Math.hypot(cx - px, cy - py);
        if (dist < bestDist && dist < 150) { bestDist = dist; bestKey = `person_${pi}`; }
      });
      const key = bestKey || `person_new_${now}_${ci}`;
      ...
    });

`matched` is created and *checked* but no element is ever added to it.
Distances are compared through their squares (`Math.hypot` is nonnegative and
squaring is monotone on nonnegatives; `150² = 22500`), and the string keys
`person_${pi}` / `person_new_${now}_${ci}` are embedded as an inductive type. -/

def center (b : BBox) : ℚ × ℚ := (b.x + b.w / 2, b.y + b.h / 2)

def sqDist (p q : ℚ × ℚ) : ℚ := (p.1 - q.1) * (p.1 - q.1) + (p.2 - q.2) * (p.2 - q.2)

inductive TrackKey where
  | prevIdx : ℕ → TrackKey
  | fresh : ℕ → ℕ → TrackKey
  deriving Repr, DecidableEq

/-- The inner `forEach` over previous-frame boxes: nearest unmatched previous
index within 150 px, `none` when no candidate qualifies (`bestKey` left `""`). -/
def bestMatch (prevBoxes : List BBox) (matched : List ℕ) (c : ℚ × ℚ) : Option ℕ :=
  (prevBoxes.enum.foldl
    (fun (acc : Option ℚ × Option ℕ) pb =>
      if pb.1 ∈ matched then acc
      else
        let d := sqDist c (center pb.2)
        let closer := match acc.1 with
          | none => true
          | some bd => decide (d < bd)
        if closer && decide (d < 22500) then (some d, some pb.1) else acc)
    (none, none)).2

/-- The outer `forEach` over current-frame boxes, producing each detection's
history key.  The pair state mirrors the source: the `matched` set is threaded
through every iteration but — exactly as in the source — never grows. -/
def assignKeys (now : ℕ) (prevBoxes currBoxes : List BBox) : List TrackKey :=
  (currBoxes.enum.foldl
    (fun (st : List ℕ × List TrackKey) cb =>
      let key := match bestMatch prevBoxes st.1 (center cb.2) with
        | some pi => TrackKey.prevIdx pi
        | none => TrackKey.fresh now cb.1
      (st.1, st.2 ++ [key]))
    ([], [])).2

/-- **C2.** Evaluating the tracker's key assignment on a frame with one
previous identity (center (5,5)) and two current detections (centers (5,5) and
(7,5), both within 150 px of it) assigns *both* detections to previous
identity 0: because no index is ever added to `matched`, the claimed
"no two current-frame detections share a previous-frame identity" fails. -/
theorem tracker_assigns_two_detections_same_identity :
    assignKeys 7 [⟨0, 0, 10, 10⟩] [⟨0, 0, 10, 10⟩, ⟨2, 0, 10, 10⟩] =
      [TrackKey.prevIdx 0, TrackKey.prevIdx 0] := by
  norm_num [assignKeys, bestMatch, center, sqDist, List.enum, List.enumFrom]

/-! ## Voice alerts (the `useVoiceAlert` hook)

    const speak = (message, cooldownMs = 8000) => {
      if (!voiceEnabled || !synthRef.current) return;
      const key = message.replace(/[^a-zA-Z ]/g, "").toLowerCase().slice(0, 40);
      const lastTime = lastSpokenRef.current.get(key) || 0;
      if (Date.now() - lastTime < cooldownMs) return;
      lastSpokenRef.current.set(key, Date.now());
      const clean = message.replace(/emoji-range/gu, "").trim();
      queueRef.current.push(clean);
      speakNext();
    };

    const speakNext = () => {
      if (!synthRef.current || queueRef.current.length === 0 || isSpeakingRef.current) return;
      const text = queueRef.current.shift()!;
      isSpeakingRef.current = true;
      ...
      utterance.onend = () => { isSpeakingRef.current = false; speakNext(); };
      utterance.onerror = () => { isSpeakingRef.current = false; speakNext(); };
      synthRef.current.speak(utterance);
    };

The map `lastSpokenRef` is embedded as an association list where a `set`
prepends a binding (later bindings shadow earlier ones under `List.lookup`,
matching `Map.set`/`Map.get`).  The two trace fields `startedTrace` and
`enqueuedTrace` are ghost instrumentation, recording in order the texts handed
to the speech engine and the texts that passed dedup, so that ordering
properties can be stated; they do not influence any step. -/

/-- `message.replace(/[^a-zA-Z ]/g, "").toLowerCase().slice(0, 40)`. -/
def normalizeKey (m : String) : String :=
  String.mk (((m.toList.filter (fun c => c.isAlpha || c == ' ')).map Char.toLower).take 40)

/-- Emoji stripping (`[\u{1F600}-\u{1FFFF}]` removed) followed by `trim`. -/
def cleanMessage (m : String) : String :=
  (String.mk (m.toList.filter
    (fun c => !(decide (0x1F600 ≤ c.toNat) && decide (c.toNat ≤ 0x1FFFF))))).trim

structure VoiceState where
  enabled : Bool
  synthAvailable : Bool
  lastSpoken : List (String × ℕ)
  queue : List String
  speaking : Bool
  startedTrace : List String
  enqueuedTrace : List String
  deriving Repr, DecidableEq

/-- `speakNext`: a no-op when the engine is missing, the queue is empty or an
utterance is in progress; otherwise dequeues the head and starts speaking it. -/
def speakNext (s : VoiceState) : VoiceState :=
  match s.queue with
  | [] => s
  | t :: rest =>
    if !s.synthAvailable || s.speaking then s
    else { s with queue := rest, speaking := true, startedTrace := s.startedTrace ++ [t] }

/-- `speak(message, cooldownMs)` at clock value `now` (`Date.now()`). -/
def speak (s : VoiceState) (message : String) (cooldownMs : ℕ) (now : ℕ) : VoiceState :=
  if !s.enabled || !s.synthAvailable then s
  else
    let key := normalizeKey message
    let lastTime := (s.lastSpoken.lookup key).getD 0
    if now - lastTime < cooldownMs then s
    else
      let clean := cleanMessage message
      speakNext { s with
        lastSpoken := (key, now) :: s.lastSpoken
        queue := s.queue ++ [clean]
        enqueuedTrace := s.enqueuedTrace ++ [clean] }

/-- The `onend`/`onerror` callback of the current utterance (both identical):
clear the speaking flag and advance the queue. -/
def finishUtterance (s : VoiceState) : VoiceState :=
  speakNext { s with speaking := false }

lemma speakNext_enqueuedTrace (s : VoiceState) :
    (speakNext s).enqueuedTrace = s.enqueuedTrace := by
  unfold speakNext
  rcases hq : s.queue with _ | ⟨t, rest⟩
  · rfl
  · dsimp only
    split <;> rfl

lemma speakNext_lastSpoken (s : VoiceState) : (speakNext s).lastSpoken = s.lastSpoken := by
  unfold speakNext
  rcases hq : s.queue with _ | ⟨t, rest⟩
  · rfl
  · dsimp only
    split <;> rfl

lemma speakNext_of_speaking (s : VoiceState) (h : s.speaking = true) : speakNext s = s := by
  unfold speakNext
  rcases hq : s.queue with _ | ⟨t, rest⟩
  · rfl
  · dsimp only
    rw [if_pos (show (!s.synthAvailable || s.speaking) = true by simp [h])]

/-- **C6.** If a message with dedup key `k` was accepted at time `t`, a later
`speak` call whose message normalizes to `k` is discarded without any state
change while `now < t + c`, and is accepted — enqueued again with the
acceptance time re-recorded — as soon as `t + c ≤ now`. -/
theorem speak_cooldown_dedup (s : VoiceState) (m : String) (c now t : ℕ)
    (hen : s.enabled = true) (hsy : s.synthAvailable = true)
    (hlast : s.lastSpoken.lookup (normalizeKey m) = some t) (hle : t ≤ now) :
    (now < t + c → speak s m c now = s) ∧
    (t + c ≤ now →
      (speak s m c now).enqueuedTrace = s.enqueuedTrace ++ [cleanMessage m] ∧
      (speak s m c now).lastSpoken.lookup (normalizeKey m) = some now) := by
  unfold speak
  rw [hen, hsy]
  simp only [Bool.not_true, Bool.or_self, Bool.false_eq_true, if_false, hlast, Option.getD_some]
  constructor
  · intro hlt
    rw [if_pos (by omega)]
  · intro hge
    rw [if_neg (by omega)]
    refine ⟨?_, ?_⟩
    · rw [speakNext_enqueuedTrace]
    · rw [speakNext_lastSpoken]
      simp [List.lookup]

/-- The initial hook state: voice enabled, engine present, nothing recorded. -/
def initVoice : VoiceState := ⟨true, true, [], [], false, [], []⟩

/-- The state after a first accepted `speak("Fire!", 8000)` at time 100000. -/
def fireState : VoiceState := speak initVoice "Fire!" 8000 100000

/-- Witness instantiating `speak_cooldown_dedup`: after `speak("Fire!", 8000)`
is accepted at time 100000, an identical call at 104000 (within the cooldown)
is a no-op and an identical call at 108000 enqueues again. -/
theorem speak_cooldown_dedup_witness :
    speak fireState "Fire!" 8000 104000 = fireState ∧
    (speak fireState "Fire!" 8000 108000).enqueuedTrace =
      fireState.enqueuedTrace ++ [cleanMessage "Fire!"] :=
  ⟨(speak_cooldown_dedup fireState "Fire!" 8000 104000 100000 rfl rfl (by decide)
      (by omega)).1 (by omega),
    ((speak_cooldown_dedup fireState "Fire!" 8000 108000 100000 rfl rfl (by decide)
      (by omega)).2 (by omega)).1⟩

/-! ### C7: FIFO, single-flight announcement order

The externally visible events of the hook are `speak` calls (at arbitrary
times, with arbitrary messages, including while an utterance is in progress)
and completion/failure callbacks of the engine. -/

inductive VoiceEvent where
  | call : String → ℕ → ℕ → VoiceEvent
  | finish : VoiceEvent
  deriving Repr, DecidableEq

def voiceStep (s : VoiceState) : VoiceEvent → VoiceState
  | VoiceEvent.call m c now => speak s m c now
  | VoiceEvent.finish => finishUtterance s

def runVoice (events : List VoiceEvent) : VoiceState :=
  events.foldl voiceStep initVoice

/-- The texts handed to the engine, in order, followed by the pending queue,
are exactly the accepted texts in acceptance order. -/
def QueueInv (s : VoiceState) : Prop :=
  s.enqueuedTrace = s.startedTrace ++ s.queue

lemma speakNext_inv (s : VoiceState) (h : QueueInv s) : QueueInv (speakNext s) := by
  unfold QueueInv at *
  unfold speakNext
  rcases hq : s.queue with _ | ⟨t, rest⟩
  · exact h
  · dsimp only
    split
    · exact h
    · dsimp only
      rw [h, hq]
      simp

lemma speak_inv (s : VoiceState) (m : String) (c now : ℕ) (h : QueueInv s) :
    QueueInv (speak s m c now) := by
  unfold speak
  split
  · exact h
  · dsimp only
    split
    · exact h
    · apply speakNext_inv
      unfold QueueInv at *
      simp [h]

lemma finishUtterance_inv (s : VoiceState) (h : QueueInv s) : QueueInv (finishUtterance s) := by
  unfold finishUtterance
  exact speakNext_inv _ h

lemma runVoice_inv (events : List VoiceEvent) : QueueInv (runVoice events) := by
  unfold runVoice
  induction events using List.reverseRecOn with
  | nil => rfl
  | append_singleton es e ih =>
    rw [List.foldl_append, List.foldl_cons, List.foldl_nil]
    cases e with
    | call m c now => exact speak_inv _ _ _ _ ih
    | finish => exact finishUtterance_inv _ ih

lemma speak_speaking_startedTrace (s : VoiceState) (m : String) (c now : ℕ)
    (h : s.speaking = true) : (speak s m c now).startedTrace = s.startedTrace := by
  unfold speak
  split
  · rfl
  · dsimp only
    split
    · rfl
    · rw [speakNext_of_speaking _ (by simpa using h)]

/-- **C7.** The voice queue announces texts strictly in FIFO acceptance order,
one at a time: after any event sequence the started-utterance trace followed by
the pending queue is exactly the accepted-text trace (so every utterance ever
started was the oldest pending entry at its start), and a `speak` call arriving
while an utterance is in progress starts no new utterance. -/
theorem voice_queue_fifo :
    (∀ events : List VoiceEvent, QueueInv (runVoice events)) ∧
    (∀ (events : List VoiceEvent) (m : String) (c now : ℕ),
      (runVoice events).speaking = true →
      (runVoice (events ++ [VoiceEvent.call m c now])).startedTrace =
        (runVoice events).startedTrace) := by
  refine ⟨runVoice_inv, fun events m c now h => ?_⟩
  unfold runVoice
  rw [List.foldl_append, List.foldl_cons, List.foldl_nil]
  exact speak_speaking_startedTrace _ _ _ _ h

/-- Witness instantiating `voice_queue_fifo`: one accepted call starts speaking
"a"; a second call made while "a" is in progress starts nothing new. -/
theorem voice_queue_fifo_witness :
    QueueInv (runVoice [VoiceEvent.call "a" 0 5]) ∧
    (runVoice [VoiceEvent.call "a" 0 5]).speaking = true ∧
    (runVoice ([VoiceEvent.call "a" 0 5] ++ [VoiceEvent.call "b" 0 6])).startedTrace =
      (runVoice [VoiceEvent.call "a" 0 5]).startedTrace :=
  ⟨voice_queue_fifo.1 _, by decide, voice_queue_fifo.2 [VoiceEvent.call "a" 0 5] "b" 0 6 (by decide)⟩

end CrowdGuard
